import Mathlib

/-!
Verification of the ToyForth interpreter (tokenizer/compiler, operation
dictionary, evaluation stack, execution engine and primitive operations).

The development shallowly embeds the C sources:
  * `tforth.h`   : the tagged value type `TFObj` and parser state `TFParser`
  * `mem.c`      : the object constructors (`createIntegerObject`, ...)
  * `dictionary.c`: the fixed operation table and `lookupOperation`
  * `parser.c`   : `parserAdvance`, `parserSkipWhiteSpace`, `parseNumber`
                   (via a model of `strtol` on a 64-bit `long` host),
                   `parseSymbol` and `compile`
  * `stack.c`    : `stackPush` / `stackPop` (underflow is a fatal error)
  * `ops.c`      : the eight primitive operations
  * `engine.c`   : `execute`

Machine integers are modelled as `Int` with explicit two's-complement
wraparound: a C `int` is 32 bits, a C `long` is 64 bits (the host model
named by the spec).  Fatal conditions (`exit(EXIT_FAILURE)` paths) are
modelled by an `Except` error result; the evaluation stack is a Lean list
whose head is the top of the stack (the end of the C dynamic array).
Reference counting, which the functional embedding abstracts away, is
modelled separately by a small instrumented heap (`RCHeap`) threaded
through a second copy of `compile`, used to verify the release discipline
of the compiler's failure path.
-/

namespace ToyForth

/-- C `isdigit` in the C locale: character codes 48..57 (`'0'`..`'9'`). -/
def isDigitC (c : Char) : Bool := 48 ≤ c.toNat && c.toNat ≤ 57

/-- C `isspace` in the C locale: space (32), `\t` (9), `\n` (10),
vertical tab (11), form feed (12), `\r` (13). -/
def isCSpace (c : Char) : Bool := c.toNat = 32 || (9 ≤ c.toNat && c.toNat ≤ 13)

/-- The NUL terminator of the C source buffer; reading it models reading
the byte `'\0'` past the end of the list-of-characters program text. -/
def nulChar : Char := '\x00'

/-- Largest value of the host's 64-bit `long` (`LONG_MAX`). -/
def longMax : Int := 2 ^ 63 - 1

/-- Smallest value of the host's 64-bit `long` (`LONG_MIN`). -/
def longMin : Int := -(2 ^ 63)

/-- `strtol` clamps an out-of-range value to `LONG_MIN` / `LONG_MAX`. -/
def clampLong (v : Int) : Int := max longMin (min longMax v)

/-- Two's-complement truncation of an integer to the host's 32-bit `int`:
reduction modulo `2^32` into the range `[-2^31, 2^31)`.  This models both
the implicit `long → int` conversion at the `createIntegerObject` call in
`parseNumber` and the wraparound semantics of `int` arithmetic in `ops.c`. -/
def toInt32 (v : Int) : Int := (v + 2 ^ 31) % 2 ^ 32 - 2 ^ 31

/-- `TF_OBJ_TYPE` / `tfobj` from `tforth.h`: the tagged runtime value.
`int` and `bool` both carry the C `int` payload field `number`
(`bool` is nonzero-is-true); `str` and `symbol` carry the deep-copied
character data; `list` carries the owned elements in order. -/
inductive TFObj where
  | int (number : Int)
  | str (s : String)
  | bool (number : Int)
  | list (elems : List TFObj)
  | symbol (s : String)
deriving Repr

/-- `createIntegerObject` from `mem.c`: builds a `TF_OBJ_INT`.  The C
function stores a 32-bit `int`; every caller's value reaches it through
the `int` type, so the two's-complement truncation of wider or
overflowing values happens exactly here. -/
def createIntegerObject (n : Int) : TFObj := TFObj.int (toInt32 n)

/-- `createBooleanObject` from `mem.c`. -/
def createBooleanObject (n : Int) : TFObj := TFObj.bool n

/-- `createSymbolObject` from `mem.c`: a deep copy of the scanned bytes,
tagged `TF_OBJ_SYMBOL`. -/
def createSymbolObject (chars : List Char) : TFObj := TFObj.symbol (String.mk chars)

/-- The primitive operations bound in the dictionary of `dictionary.c`
(the C table maps each name to a function pointer; the engine model
dispatches on this tag). -/
inductive Operation where
  | add | sub | mul | div | print | dup | drop | swap
deriving DecidableEq, Repr

/-- `operations[]` from `dictionary.c`: the fixed name → behaviour table,
in source order. -/
def operations : List (String × Operation) :=
  [("+", Operation.add), ("-", Operation.sub), ("*", Operation.mul),
   ("/", Operation.div), (".", Operation.print), ("dup", Operation.dup),
   ("drop", Operation.drop), ("swap", Operation.swap)]

/-- `lookupOperation` from `dictionary.c`: linear scan with exact,
case-sensitive string comparison (`strcmp`). -/
def lookupOperation (name : String) : Option Operation :=
  (operations.find? (fun e => name = e.1)).map Prod.snd

/-- `tfparser` from `tforth.h`: the remaining program text plus 1-based
line/column counters. -/
structure TFParser where
  program : List Char
  line : Nat
  column : Nat
deriving DecidableEq, Repr

/-- `parserPeek` from `parser.c`: the current character, `none` standing
for the NUL terminator at end of text. -/
def parserPeek (p : TFParser) : Option Char := p.program.head?

/-- `parserAdvance` from `parser.c`: move one character forward,
maintaining the line/column bookkeeping (`\n` starts a new line). -/
def parserAdvance (p : TFParser) : TFParser :=
  match p.program with
  | [] => p
  | c :: t =>
    if c = '\n' then { program := t, line := p.line + 1, column := 1 }
    else { program := t, line := p.line, column := p.column + 1 }

/-- `parserAdvance` iterated `n` times (the `while (parser->program < end)`
advancing loop of `parseNumber`, and the per-character loop of
`parseSymbol`). -/
def parserAdvanceN : Nat → TFParser → TFParser
  | 0, p => p
  | n + 1, p => parserAdvanceN n (parserAdvance p)

/-- Structural worker for `parserSkipWhiteSpace`, recursing on the
program text while tracking line/column exactly as `parserAdvance` does. -/
def skipWSAux : List Char → Nat → Nat → TFParser
  | [], line, col => { program := [], line := line, column := col }
  | c :: t, line, col =>
    if isCSpace c then
      if c = '\n' then skipWSAux t (line + 1) 1 else skipWSAux t line (col + 1)
    else { program := c :: t, line := line, column := col }

/-- `parserSkipWhiteSpace` from `parser.c`: advance while the current
character is whitespace. -/
def parserSkipWhiteSpace (p : TFParser) : TFParser :=
  skipWSAux p.program p.line p.column

/-- Model of the host's `strtol(start, &end, 10)` on a 64-bit `long`:
skip C whitespace, read an optional sign and a maximal run of decimal
digits; the result is clamped to the `long` range on overflow.  Returns
the value together with the number of characters consumed
(`end - start`); if no digits were found nothing is consumed and the
value is `0`. -/
def digitsToNat (ds : List Char) : Nat :=
  ds.foldl (fun acc c => 10 * acc + (c.toNat - 48)) 0

def strtolModel (s : List Char) : Int × Nat :=
  let s1 := s.dropWhile isCSpace
  let ws := s.length - s1.length
  match s1 with
  | [] => (0, 0)
  | c :: t =>
    if c = '-' then
      let ds := t.takeWhile isDigitC
      if ds.isEmpty then (0, 0)
      else (clampLong (-(digitsToNat ds : Int)), ws + 1 + ds.length)
    else if c = '+' then
      let ds := t.takeWhile isDigitC
      if ds.isEmpty then (0, 0)
      else (clampLong (digitsToNat ds : Int), ws + 1 + ds.length)
    else
      let ds := (c :: t).takeWhile isDigitC
      if ds.isEmpty then (0, 0)
      else (clampLong (digitsToNat ds : Int), ws + ds.length)

/-- `parseNumber` from `parser.c`: `strtol` the current position, advance
past the consumed characters, and build the Integer object (the `long`
value is truncated to `int` at the `createIntegerObject` call). -/
def parseNumber (p : TFParser) : TFObj × TFParser :=
  let r := strtolModel p.program
  (createIntegerObject r.1, parserAdvanceN r.2 p)

/-- `parseSymbol` from `parser.c`: scan a maximal run of non-whitespace
characters, then validate the name against the operation dictionary.
Returns `none` (the C `NULL`) for an unknown symbol; in either case the
parser has advanced past the token. -/
def parseSymbol (p : TFParser) : Option TFObj × TFParser :=
  let name := p.program.takeWhile (fun c => !(isCSpace c))
  let p2 := parserAdvanceN name.length p
  match lookupOperation (String.mk name) with
  | none => (none, p2)
  | some _ => (some (createSymbolObject name), p2)

/-- The syntax error produced by `compile`: the 1-based line and column
of the offending token's first character. -/
structure SyntaxError where
  line : Nat
  column : Nat
deriving DecidableEq, Repr

/-- The tokenizing loop of `compile` from `parser.c`.  One fuel unit is
spent per iteration of the C `while (parserPeek(&parser))` loop; since
every iteration either finishes or consumes at least one character,
`fuel = length + 1` (as supplied by `compile`) never runs out.  Each
iteration skips whitespace, records the token start position, then
parses a number (if the character is a digit, or `'-'` immediately
followed by a digit — reading `program[1]`, which is the NUL terminator
at end of text) or else a symbol; an unknown symbol aborts compilation
with a `SyntaxError` at the recorded position. -/
def compileLoop : Nat → TFParser → List TFObj → Except SyntaxError (List TFObj)
  | 0, _, _ => Except.error ⟨0, 0⟩
  | fuel + 1, p, acc =>
    if p.program.isEmpty then Except.ok acc
    else
      let p1 := parserSkipWhiteSpace p
      match p1.program with
      | [] => Except.ok acc
      | c :: rest =>
        if isDigitC c || (c = '-' && isDigitC (rest.headD nulChar)) then
          let r := parseNumber p1
          compileLoop fuel r.2 (acc ++ [r.1])
        else
          match parseSymbol p1 with
          | (none, _) => Except.error ⟨p1.line, p1.column⟩
          | (some obj, p2) => compileLoop fuel p2 (acc ++ [obj])

/-- `compile` from `parser.c`: tokenize the whole program text into the
program list, or fail with a `SyntaxError` (in the C code: print the
diagnostic, release the partial list and return `NULL`). -/
def compile (text : List Char) : Except SyntaxError (List TFObj) :=
  compileLoop (text.length + 1) { program := text, line := 1, column := 1 } []

/-- The four fatal runtime conditions; each one is an
`exit(EXIT_FAILURE)` in the C code. -/
inductive FatalError where
  | unknownWord (name : String)
  | unexecutable
  | stackUnderflow
  | divByZero
deriving DecidableEq, Repr

/-- `stackPush` from `stack.c`: append to the end of the stack array.
The model's list holds the top of the stack at its head. -/
def stackPush (st : List TFObj) (v : TFObj) : List TFObj := v :: st

/-- `stackPop` from `stack.c`: remove and return the top element;
popping an empty stack is the fatal underflow error. -/
def stackPop (st : List TFObj) : Except FatalError (TFObj × List TFObj) :=
  match st with
  | [] => Except.error FatalError.stackUnderflow
  | v :: rest => Except.ok (v, rest)

/-- `operationAdd` from `ops.c` (`( a b -- a+b )`): pop `b` then `a`; if
both are Integers push their (wrapped) sum, otherwise push nothing; the
operands are consumed either way. -/
def operationAdd (st : List TFObj) (out : String) :
    Except FatalError (List TFObj × String) :=
  match stackPop st with
  | Except.error e => Except.error e
  | Except.ok (b, st1) =>
    match stackPop st1 with
    | Except.error e => Except.error e
    | Except.ok (a, st2) =>
      match a, b with
      | TFObj.int x, TFObj.int y =>
        Except.ok (stackPush st2 (createIntegerObject (x + y)), out)
      | _, _ => Except.ok (st2, out)

/-- `operationSub` from `ops.c` (`( a b -- a-b )`). -/
def operationSub (st : List TFObj) (out : String) :
    Except FatalError (List TFObj × String) :=
  match stackPop st with
  | Except.error e => Except.error e
  | Except.ok (b, st1) =>
    match stackPop st1 with
    | Except.error e => Except.error e
    | Except.ok (a, st2) =>
      match a, b with
      | TFObj.int x, TFObj.int y =>
        Except.ok (stackPush st2 (createIntegerObject (x - y)), out)
      | _, _ => Except.ok (st2, out)

/-- `operationMul` from `ops.c` (`( a b -- a*b )`). -/
def operationMul (st : List TFObj) (out : String) :
    Except FatalError (List TFObj × String) :=
  match stackPop st with
  | Except.error e => Except.error e
  | Except.ok (b, st1) =>
    match stackPop st1 with
    | Except.error e => Except.error e
    | Except.ok (a, st2) =>
      match a, b with
      | TFObj.int x, TFObj.int y =>
        Except.ok (stackPush st2 (createIntegerObject (x * y)), out)
      | _, _ => Except.ok (st2, out)

/-- `operationDiv` from `ops.c` (`( a b -- a/b )`): like the other
arithmetic words, but a zero Integer divisor is the fatal
division-by-zero error, checked before anything is pushed.  C `int`
division truncates toward zero (`Int.tdiv`). -/
def operationDiv (st : List TFObj) (out : String) :
    Except FatalError (List TFObj × String) :=
  match stackPop st with
  | Except.error e => Except.error e
  | Except.ok (b, st1) =>
    match stackPop st1 with
    | Except.error e => Except.error e
    | Except.ok (a, st2) =>
      match a, b with
      | TFObj.int x, TFObj.int y =>
        if y = 0 then Except.error FatalError.divByZero
        else Except.ok (stackPush st2 (createIntegerObject (Int.tdiv x y)), out)
      | _, _ => Except.ok (st2, out)

/-- `operationPrint` from `ops.c` (`( a -- )`): pop and print — Integer
as `printf("%d ", ·)`, String as its contents plus a space, Boolean as
`TRUE`/`FALSE` plus a space; Symbols and Lists are popped silently. -/
def operationPrint (st : List TFObj) (out : String) :
    Except FatalError (List TFObj × String) :=
  match stackPop st with
  | Except.error e => Except.error e
  | Except.ok (v, st1) =>
    match v with
    | TFObj.int n => Except.ok (st1, out ++ toString n ++ " ")
    | TFObj.str s => Except.ok (st1, out ++ s ++ " ")
    | TFObj.bool n => Except.ok (st1, out ++ (if n = 0 then "FALSE" else "TRUE") ++ " ")
    | TFObj.list _ => Except.ok (st1, out)
    | TFObj.symbol _ => Except.ok (st1, out)

/-- `operationDup` from `ops.c` (`( a -- a a )`): an explicit guard makes
duplication on an empty stack a silent no-op instead of an underflow. -/
def operationDup (st : List TFObj) (out : String) :
    Except FatalError (List TFObj × String) :=
  if st.length = 0 then Except.ok (st, out)
  else
    match stackPop st with
    | Except.error e => Except.error e
    | Except.ok (v, st1) => Except.ok (stackPush (stackPush st1 v) v, out)

/-- `operationDrop` from `ops.c` (`( a -- )`): pop and release the top;
underflows fatally on an empty stack. -/
def operationDrop (st : List TFObj) (out : String) :
    Except FatalError (List TFObj × String) :=
  match stackPop st with
  | Except.error e => Except.error e
  | Except.ok (_, st1) => Except.ok (st1, out)

/-- `operationSwap` from `ops.c` (`( a b -- b a )`): pop `b` then `a`,
push `b` then `a` (leaving `a` on top). -/
def operationSwap (st : List TFObj) (out : String) :
    Except FatalError (List TFObj × String) :=
  match stackPop st with
  | Except.error e => Except.error e
  | Except.ok (b, st1) =>
    match stackPop st1 with
    | Except.error e => Except.error e
    | Except.ok (a, st2) => Except.ok (stackPush (stackPush st2 b) a, out)

/-- Dispatch of a dictionary entry to its bound behaviour (the function
pointer stored in `operations[]`). -/
def applyOperation : Operation → List TFObj → String →
    Except FatalError (List TFObj × String)
  | Operation.add, st, out => operationAdd st out
  | Operation.sub, st, out => operationSub st out
  | Operation.mul, st, out => operationMul st out
  | Operation.div, st, out => operationDiv st out
  | Operation.print, st, out => operationPrint st out
  | Operation.dup, st, out => operationDup st out
  | Operation.drop, st, out => operationDrop st out
  | Operation.swap, st, out => operationSwap st out

/-- One iteration of the engine loop in `engine.c`: Integers and Booleans
are pushed; Symbols are resolved in the dictionary and dispatched, an
unresolved Symbol being the fatal unknown-word error; any other object is
the fatal unexecutable-object error. -/
def executeStep (obj : TFObj) (st : List TFObj) (out : String) :
    Except FatalError (List TFObj × String) :=
  match obj with
  | TFObj.int _ => Except.ok (stackPush st obj, out)
  | TFObj.bool _ => Except.ok (stackPush st obj, out)
  | TFObj.symbol name =>
    match lookupOperation name with
    | some op => applyOperation op st out
    | none => Except.error (FatalError.unknownWord name)
  | _ => Except.error FatalError.unexecutable

/-- `execute` from `engine.c`: run the compiled program list left to
right over the evaluation stack, threading the text printed to standard
output; a fatal error halts immediately. -/
def execute : List TFObj → List TFObj → String →
    Except FatalError (List TFObj × String)
  | [], st, out => Except.ok (st, out)
  | obj :: prog, st, out =>
    match executeStep obj st out with
    | Except.error e => Except.error e
    | Except.ok (st1, out1) => execute prog st1 out1

/-!
### Reference-count instrumentation of `compile`

`compile` allocates one list object (`createListObject`, refcount 1) and
one object per token; every object a successful parse creates is
appended to the list (which retains it) and then released by the loop,
leaving the list as sole owner.  On an unknown symbol, `parseSymbol` has
already released the symbol object it created, and `compile` releases
the partial list, whose `freeObject` recursively releases every element.
The heap below records exactly these events.  The elements of the
program list are always atoms (Integers / Symbols, never lists), so the
recursive `freeObject` of `mem.c` visits children one level deep, which
`decList` reproduces by folding `decAtom` over the element ids.
-/

/-- The instrumented heap: the refcount of the single `program_list`
(`0` = freed), the ids of the elements appended to it, the live atom
objects with their refcounts, and the next fresh id. -/
structure RCHeap where
  listRc : Nat
  elems : List Nat
  atoms : List (Nat × Nat)
  next : Nat
deriving DecidableEq, Repr

/-- `createObject` for an atom (Integer/Symbol): a fresh id with
refcount 1. -/
def allocAtom (h : RCHeap) : Nat × RCHeap :=
  (h.next, { h with atoms := h.atoms ++ [(h.next, 1)], next := h.next + 1 })

/-- `incrementReferenceCount` on an atom. -/
def incAtom (h : RCHeap) (id : Nat) : RCHeap :=
  { h with
    atoms := h.atoms.map (fun pr => if pr.1 = id then (pr.1, pr.2 + 1) else pr) }

/-- `decrementReferenceCount` on an atom: decrement, and free the object
(remove it from the heap) when the count reaches zero. -/
def decAtom (h : RCHeap) (id : Nat) : RCHeap :=
  { h with
    atoms := h.atoms.filterMap (fun pr =>
      if pr.1 = id then
        if pr.2 ≤ 1 then none else some (pr.1, pr.2 - 1)
      else some pr) }

/-- `listAppendObject` from `list.c`: store the element and retain a
reference on the list's behalf. -/
def listAppendRC (h : RCHeap) (id : Nat) : RCHeap :=
  incAtom { h with elems := h.elems ++ [id] } id

/-- `decrementReferenceCount` on the program list: at zero, `freeObject`
releases every element (all atoms) and frees the list itself. -/
def decList (h : RCHeap) : RCHeap :=
  if h.listRc ≤ 1 then
    { h.elems.foldl decAtom h with listRc := 0, elems := [] }
  else { h with listRc := h.listRc - 1 }

/-- The compile loop instrumented with the reference-count events of
`parser.c`: per accepted token, `createObject` (count 1), the append's
retain (count 2) and the loop's release (count 1, owned by the list);
on an unknown symbol, the release inside `parseSymbol` (the symbol
object dies) followed by `compile`'s release of the partial list. -/
def compileLoopRC : Nat → TFParser → List TFObj → RCHeap →
    Except SyntaxError (List TFObj) × RCHeap
  | 0, _, _, h => (Except.error ⟨0, 0⟩, h)
  | fuel + 1, p, acc, h =>
    if p.program.isEmpty then (Except.ok acc, h)
    else
      let p1 := parserSkipWhiteSpace p
      match p1.program with
      | [] => (Except.ok acc, h)
      | c :: rest =>
        if isDigitC c || (c = '-' && isDigitC (rest.headD nulChar)) then
          let r := parseNumber p1
          let ah := allocAtom h
          compileLoopRC fuel r.2 (acc ++ [r.1]) (decAtom (listAppendRC ah.2 ah.1) ah.1)
        else
          match parseSymbol p1 with
          | (none, _) =>
            let ah := allocAtom h
            (Except.error ⟨p1.line, p1.column⟩, decList (decAtom ah.2 ah.1))
          | (some obj, p2) =>
            let ah := allocAtom h
            compileLoopRC fuel p2 (acc ++ [obj]) (decAtom (listAppendRC ah.2 ah.1) ah.1)

/-- `compile` with its reference-count events: the heap starts with the
freshly created `program_list` (refcount 1) and nothing else. -/
def compileRC (text : List Char) : Except SyntaxError (List TFObj) × RCHeap :=
  compileLoopRC (text.length + 1) { program := text, line := 1, column := 1 } []
    { listRc := 1, elems := [], atoms := [], next := 0 }

/-!
### Decimal literals

Helpers used to state the claims about integer-literal tokens: a
recognizer for the token shapes `parseNumber` is invoked on (an optional
`'-'` followed by a nonempty digit run), their numeric value, and the
canonical decimal rendering of an integer.
-/

/-- The decimal digits of `n`, most significant first. -/
def natDigits (n : Nat) : List Char :=
  if h : n < 10 then [Char.ofNat (48 + n)]
  else natDigits (n / 10) ++ [Char.ofNat (48 + n % 10)]
termination_by n
decreasing_by
  exact Nat.div_lt_self (by omega) (by omega)

/-- A well-formed integer-literal token: a nonempty digit run, with an
optional leading minus sign. -/
def isIntLiteral (s : List Char) : Bool :=
  match s with
  | [] => false
  | c :: t =>
    if c = '-' then !t.isEmpty && t.all isDigitC
    else (c :: t).all isDigitC

/-- The exact numeric value denoted by an integer-literal token. -/
def literalValue (s : List Char) : Int :=
  match s with
  | [] => 0
  | c :: t =>
    if c = '-' then -(digitsToNat t : Int)
    else (digitsToNat (c :: t) : Int)

/-- Canonical decimal rendering of an integer. -/
def intLit (n : Int) : List Char :=
  if n < 0 then '-' :: natDigits (-n).toNat else natDigits n.toNat

/-- The source text `"a b OP"` for two integer operands and a
single-character operation name. -/
def arithText (a b : Int) (op : Char) : List Char :=
  intLit a ++ ' ' :: (intLit b ++ [' ', op])

/-!
### Character and scanning lemmas
-/

theorem isCSpace_eq_false_of_isDigitC {c : Char} (h : isDigitC c = true) :
    isCSpace c = false := by
  simp only [isDigitC, Bool.and_eq_true, decide_eq_true_eq] at h
  simp only [isCSpace, Bool.or_eq_false_iff, Bool.and_eq_false_iff,
    decide_eq_false_iff_not]
  omega

theorem ne_dash_of_isDigitC {c : Char} (h : isDigitC c = true) : ¬ c = '-' := by
  intro hc; subst hc; simp [isDigitC] at h

theorem ne_plus_of_isDigitC {c : Char} (h : isDigitC c = true) : ¬ c = '+' := by
  intro hc; subst hc; simp [isDigitC] at h

theorem dropWhile_append_of_all (p : Char → Bool) (xs ys : List Char)
    (h : ∀ c ∈ xs, p c = true) :
    (xs ++ ys).dropWhile p = ys.dropWhile p := by
  induction xs with
  | nil => rfl
  | cons x t ih =>
    simp only [List.cons_append, List.dropWhile_cons, h x (by simp)]
    exact ih (fun c hc => h c (by simp [hc]))

theorem dropWhile_cons_of_neg (p : Char → Bool) (c : Char) (t : List Char)
    (h : p c = false) : (c :: t).dropWhile p = c :: t := by
  simp [List.dropWhile_cons, h]

theorem takeWhile_append_of_all (p : Char → Bool) (xs ys : List Char)
    (h : ∀ c ∈ xs, p c = true) :
    (xs ++ ys).takeWhile p = xs ++ ys.takeWhile p := by
  induction xs with
  | nil => rfl
  | cons x t ih =>
    simp only [List.cons_append, List.takeWhile_cons, h x (by simp)]
    simp [ih (fun c hc => h c (by simp [hc]))]

theorem takeWhile_eq_nil_of_headD (l : List Char)
    (h : isDigitC (l.headD nulChar) = false) :
    l.takeWhile isDigitC = [] := by
  cases l with
  | nil => rfl
  | cons r t => simp only [List.headD_cons] at h; simp [List.takeWhile_cons, h]

theorem dropWhile_head_neg (p : Char → Bool) (l : List Char) (c : Char)
    (t : List Char) (h : l.dropWhile p = c :: t) : p c = false := by
  induction l with
  | nil => simp at h
  | cons x s ih =>
    by_cases hx : p x = true
    · rw [List.dropWhile_cons, if_pos hx] at h; exact ih h
    · rw [List.dropWhile_cons, if_neg hx] at h
      cases h; simpa using hx

/-!
### Parser-state lemmas
-/

theorem parserAdvance_program (p : TFParser) :
    (parserAdvance p).program = p.program.tail := by
  cases p with
  | mk l line col =>
    cases l with
    | nil => rfl
    | cons c t => by_cases h : c = '\n' <;> simp [parserAdvance, h]

theorem parserAdvanceN_program (n : Nat) (p : TFParser) :
    (parserAdvanceN n p).program = p.program.drop n := by
  induction n generalizing p with
  | zero => rfl
  | succ k ih =>
    show (parserAdvanceN k (parserAdvance p)).program = _
    rw [ih, parserAdvance_program]
    cases p.program with
    | nil => simp
    | cons c t => simp [List.drop_succ_cons]

/-- The structural worker agrees, step by step, with the
advance-while-whitespace loop of the C `parserSkipWhiteSpace`. -/
theorem skipWSAux_cons (c : Char) (t : List Char) (line col : Nat) :
    skipWSAux (c :: t) line col =
      if isCSpace c then
        parserSkipWhiteSpace (parserAdvance { program := c :: t, line := line, column := col })
      else { program := c :: t, line := line, column := col } := by
  by_cases h : isCSpace c
  · by_cases hn : c = '\n' <;>
      simp [skipWSAux, parserSkipWhiteSpace, parserAdvance, h, hn]
  · simp [skipWSAux, h]

theorem skipWSAux_program (l : List Char) :
    ∀ line col, (skipWSAux l line col).program = l.dropWhile isCSpace := by
  induction l with
  | nil => intro line col; rfl
  | cons c t ih =>
    intro line col
    by_cases h : isCSpace c
    · by_cases hn : c = '\n' <;>
        simp [skipWSAux, List.dropWhile_cons, h, hn, ih,
          show isCSpace '\n' = true from by decide]
    · simp [skipWSAux, List.dropWhile_cons, h]

theorem parserSkipWhiteSpace_program (p : TFParser) :
    (parserSkipWhiteSpace p).program = p.program.dropWhile isCSpace :=
  skipWSAux_program p.program p.line p.column

theorem parserSkipWhiteSpace_id {p : TFParser} {c : Char} {t : List Char}
    (hp : p.program = c :: t) (hc : isCSpace c = false) :
    parserSkipWhiteSpace p = p := by
  show skipWSAux p.program p.line p.column = p
  rw [hp, skipWSAux_cons, if_neg (by simp [hc])]
  cases p; simp_all

/-!
### `strtol` lemmas
-/

theorem strtolModel_digits {ds rest : List Char} (h1 : ds ≠ [])
    (h2 : ∀ c ∈ ds, isDigitC c = true)
    (hrest : isDigitC (rest.headD nulChar) = false) :
    strtolModel (ds ++ rest) = (clampLong (digitsToNat ds), ds.length) := by
  cases ds with
  | nil => exact absurd rfl h1
  | cons d t =>
    have hd : isDigitC d = true := h2 d (by simp)
    have hdrop : ((d :: t) ++ rest).dropWhile isCSpace = d :: (t ++ rest) := by
      simpa using
        dropWhile_cons_of_neg isCSpace d (t ++ rest) (isCSpace_eq_false_of_isDigitC hd)
    have htake : (d :: (t ++ rest)).takeWhile isDigitC = d :: t := by
      have h3 := takeWhile_append_of_all isDigitC (d :: t) rest h2
      rw [takeWhile_eq_nil_of_headD rest hrest] at h3
      simpa using h3
    simp only [strtolModel, hdrop]
    rw [if_neg (ne_dash_of_isDigitC hd), if_neg (ne_plus_of_isDigitC hd)]
    simp [htake, List.length_append, Nat.sub_self]

theorem strtolModel_neg_digits {ds rest : List Char} (h1 : ds ≠ [])
    (h2 : ∀ c ∈ ds, isDigitC c = true)
    (hrest : isDigitC (rest.headD nulChar) = false) :
    strtolModel ('-' :: (ds ++ rest)) =
      (clampLong (-(digitsToNat ds : Int)), 1 + ds.length) := by
  have hdrop : ('-' :: (ds ++ rest)).dropWhile isCSpace = '-' :: (ds ++ rest) :=
    dropWhile_cons_of_neg isCSpace '-' (ds ++ rest) (by decide)
  have htake : (ds ++ rest).takeWhile isDigitC = ds := by
    have h3 := takeWhile_append_of_all isDigitC ds rest h2
    rw [takeWhile_eq_nil_of_headD rest hrest] at h3
    simpa using h3
  have hne : ds.isEmpty = false := by
    cases ds with
    | nil => exact absurd rfl h1
    | cons x xs => rfl
  simp [strtolModel, hdrop, htake, hne, Nat.sub_self]

/-!
### Decimal-digit lemmas
-/

theorem isDigitC_digitChar (k : Nat) (h : k < 10) :
    isDigitC (Char.ofNat (48 + k)) = true := by
  interval_cases k <;> decide

theorem toNat_digitChar (k : Nat) (h : k < 10) :
    (Char.ofNat (48 + k)).toNat = 48 + k := by
  interval_cases k <;> decide

theorem digitsToNat_append (l : List Char) (c : Char) :
    digitsToNat (l ++ [c]) = 10 * digitsToNat l + (c.toNat - 48) := by
  simp [digitsToNat, List.foldl_append]

theorem natDigits_ne_nil (n : Nat) : natDigits n ≠ [] := by
  rw [natDigits]
  split <;> simp

theorem natDigits_all_digits (n : Nat) : ∀ c ∈ natDigits n, isDigitC c = true := by
  induction n using Nat.strong_induction_on with
  | _ n ih =>
    rw [natDigits]
    split
    · next h =>
      intro c hc
      simp only [List.mem_singleton] at hc
      subst hc
      exact isDigitC_digitChar n h
    · next h =>
      intro c hc
      simp only [List.mem_append, List.mem_singleton] at hc
      rcases hc with hc | hc
      · exact ih (n / 10) (Nat.div_lt_self (by omega) (by omega)) c hc
      · subst hc
        exact isDigitC_digitChar (n % 10) (Nat.mod_lt n (by omega))

theorem digitsToNat_natDigits (n : Nat) : digitsToNat (natDigits n) = n := by
  induction n using Nat.strong_induction_on with
  | _ n ih =>
    rw [natDigits]
    split
    · next h =>
      simp [digitsToNat, toNat_digitChar n h]
    · next h =>
      rw [digitsToNat_append, ih (n / 10) (Nat.div_lt_self (by omega) (by omega)),
        toNat_digitChar (n % 10) (Nat.mod_lt n (by omega))]
      omega

theorem intLit_ne_nil (n : Int) : intLit n ≠ [] := by
  unfold intLit
  split
  · simp
  · exact natDigits_ne_nil _

theorem isIntLiteral_intLit (n : Int) : isIntLiteral (intLit n) = true := by
  unfold intLit
  split
  · rcases hd : natDigits (-n).toNat with _ | ⟨d, t⟩
    · exact absurd hd (natDigits_ne_nil _)
    · have hall := natDigits_all_digits (-n).toNat
      rw [hd] at hall
      simp [isIntLiteral, List.all_eq_true]
      exact ⟨hall d (by simp), fun c hc => hall c (by simp [hc])⟩
  · rcases hd : natDigits n.toNat with _ | ⟨d, t⟩
    · exact absurd hd (natDigits_ne_nil _)
    · have hall := natDigits_all_digits n.toNat
      rw [hd] at hall
      have hdd : isDigitC d = true := hall d (by simp)
      simp [isIntLiteral, if_neg (ne_dash_of_isDigitC hdd), List.all_eq_true]
      exact ⟨hdd, fun c hc => hall c (by simp [hc])⟩

theorem literalValue_intLit (n : Int) : literalValue (intLit n) = n := by
  unfold intLit
  split
  · next h =>
    have hm : ((-n).toNat : Int) = -n := Int.toNat_of_nonneg (by omega)
    simp [literalValue, digitsToNat_natDigits, hm]
  · next h =>
    have hm : (n.toNat : Int) = n := Int.toNat_of_nonneg (by omega)
    have hv := digitsToNat_natDigits n.toNat
    rcases hd : natDigits n.toNat with _ | ⟨d, t⟩
    · exact absurd hd (natDigits_ne_nil _)
    · have hall := natDigits_all_digits n.toNat
      rw [hd] at hall hv
      have hdd : isDigitC d = true := hall d (by simp)
      simp [literalValue, if_neg (ne_dash_of_isDigitC hdd), hv, hm]

theorem clampLong_eq_self (v : Int) (h1 : longMin ≤ v) (h2 : v ≤ longMax) :
    clampLong v = v := by
  unfold clampLong
  rw [min_eq_right h2, max_eq_right h1]

theorem toInt32_eq_self (v : Int) (h1 : -2 ^ 31 ≤ v) (h2 : v < 2 ^ 31) :
    toInt32 v = v := by
  unfold toInt32
  omega

/-!
### Stepping lemmas for the compile loop
-/

/-- After skipping a whitespace prefix and consuming a token of known
length, the parser stands at the remainder of the text. -/
theorem advance_skip_program (p : TFParser) (sp tok rest : List Char)
    (hp : p.program = sp ++ (tok ++ rest))
    (hsp : ∀ c ∈ sp, isCSpace c = true)
    (hne : tok ≠ [])
    (hhead : ∀ c t, tok = c :: t → isCSpace c = false) :
    (parserAdvanceN tok.length (parserSkipWhiteSpace p)).program = rest := by
  rw [parserAdvanceN_program, parserSkipWhiteSpace_program, hp,
    dropWhile_append_of_all isCSpace sp _ hsp]
  cases tok with
  | nil => exact absurd rfl hne
  | cons c t =>
    rw [List.cons_append, dropWhile_cons_of_neg isCSpace c (t ++ rest) (hhead c t rfl)]
    simp

/-- `strtol` on a well-formed integer-literal token followed by a
non-digit: it reads exactly the token and yields its (clamped) value. -/
theorem strtolModel_lit (tok rest : List Char) (htok : isIntLiteral tok = true)
    (hrest : isDigitC (rest.headD nulChar) = false) :
    strtolModel (tok ++ rest) = (clampLong (literalValue tok), tok.length) := by
  cases tok with
  | nil => simp [isIntLiteral] at htok
  | cons c t =>
    by_cases hc : c = '-'
    · subst hc
      simp only [isIntLiteral] at htok
      simp at htok
      obtain ⟨hemp, hall⟩ := htok
      rw [List.cons_append, strtolModel_neg_digits hemp hall hrest]
      simp [literalValue, Nat.add_comm]
    · simp [isIntLiteral, hc] at htok
      obtain ⟨hd, hall⟩ := htok
      have hall2 : ∀ x ∈ c :: t, isDigitC x = true := by
        intro x hx
        rcases List.mem_cons.mp hx with h | h
        · subst h; exact hd
        · exact hall x h
      rw [strtolModel_digits (by simp) hall2 hrest]
      simp [literalValue, hc]

/-- One iteration of the compile loop on a well-formed integer-literal
token (possibly after whitespace): the token is consumed by
`parseNumber` and its truncated value appended to the program list. -/
theorem compileLoop_lit (f : Nat) (p : TFParser) (acc : List TFObj)
    (sp tok rest : List Char)
    (hp : p.program = sp ++ (tok ++ rest))
    (hsp : ∀ c ∈ sp, isCSpace c = true)
    (htok : isIntLiteral tok = true)
    (hrest : isDigitC (rest.headD nulChar) = false) :
    compileLoop (f + 1) p acc =
      compileLoop f (parserAdvanceN tok.length (parserSkipWhiteSpace p))
        (acc ++ [TFObj.int (toInt32 (clampLong (literalValue tok)))]) := by
  cases tok with
  | nil => simp [isIntLiteral] at htok
  | cons c t =>
    have hstr := strtolModel_lit (c :: t) rest htok hrest
    rw [List.cons_append] at hstr
    have hcs : isCSpace c = false := by
      by_cases hc : c = '-'
      · subst hc; decide
      · have h := htok
        simp [isIntLiteral, hc] at h
        exact isCSpace_eq_false_of_isDigitC h.1
    have h1 : (parserSkipWhiteSpace p).program = c :: (t ++ rest) := by
      rw [parserSkipWhiteSpace_program, hp, dropWhile_append_of_all isCSpace sp _ hsp,
        List.cons_append, dropWhile_cons_of_neg isCSpace c (t ++ rest) hcs]
    have hne : ¬(p.program.isEmpty = true) := by rw [hp]; cases sp <;> simp
    have hguard : (isDigitC c || (c = '-' && isDigitC ((t ++ rest).headD nulChar))) = true := by
      by_cases hc : c = '-'
      · subst hc
        have h := htok
        simp [isIntLiteral] at h
        obtain ⟨hemp, hall⟩ := h
        cases t with
        | nil => exact absurd rfl hemp
        | cons d s => simp [hall d (by simp)]
      · have h := htok
        simp [isIntLiteral, hc] at h
        simp [h.1]
    rw [compileLoop, if_neg hne]
    simp only [h1]
    rw [if_pos hguard]
    simp only [parseNumber, h1, hstr, createIntegerObject]

/-- The final iteration of the compile loop: no text left, so the
accumulated program list is returned. -/
theorem compileLoop_done (f : Nat) (p : TFParser) (acc : List TFObj)
    (hp : p.program = []) :
    compileLoop (f + 1) p acc = Except.ok acc := by
  rw [compileLoop]
  simp [hp]

/-- One iteration of the compile loop on a single-character known
operation name standing at the end of the text (possibly after
whitespace), followed by the loop's final iteration: compilation
finishes with the Symbol appended. -/
theorem compileLoop_op_end (f : Nat) (p : TFParser) (acc : List TFObj)
    (sp : List Char) (c : Char) (op : Operation)
    (hp : p.program = sp ++ [c])
    (hsp : ∀ x ∈ sp, isCSpace x = true)
    (hcs : isCSpace c = false)
    (hdig : isDigitC c = false)
    (hlook : lookupOperation (String.mk [c]) = some op) :
    compileLoop (f + 2) p acc = Except.ok (acc ++ [TFObj.symbol (String.mk [c])]) := by
  have h1 : (parserSkipWhiteSpace p).program = [c] := by
    rw [parserSkipWhiteSpace_program, hp, dropWhile_append_of_all isCSpace sp _ hsp,
      dropWhile_cons_of_neg isCSpace c [] hcs]
  have hne : ¬(p.program.isEmpty = true) := by rw [hp]; cases sp <;> simp
  have hguard : ¬((isDigitC c || (c = '-' && isDigitC (([] : List Char).headD nulChar))) = true) := by
    simp [hdig, show isDigitC nulChar = false from by decide]
  have hsym : parseSymbol (parserSkipWhiteSpace p) =
      (some (TFObj.symbol (String.mk [c])),
        parserAdvanceN 1 (parserSkipWhiteSpace p)) := by
    unfold parseSymbol
    rw [h1]
    simp [List.takeWhile_cons, hcs, hlook, createSymbolObject]
  have h2 : (parserAdvanceN 1 (parserSkipWhiteSpace p)).program = [] := by
    rw [parserAdvanceN_program, h1]
    simp
  show compileLoop (f + 1 + 1) p acc = _
  rw [compileLoop, if_neg hne]
  simp only [h1]
  rw [if_neg hguard]
  simp only [hsym]
  exact compileLoop_done f _ _ h2

/-- The first character of a well-formed integer literal (a digit or
`'-'`) is not whitespace. -/
theorem lit_head_not_space (s : List Char) (h : isIntLiteral s = true) :
    ∀ c t, s = c :: t → isCSpace c = false := by
  intro c t hs
  subst hs
  by_cases hc : c = '-'
  · subst hc; decide
  · have h2 := h
    simp [isIntLiteral, hc] at h2
    exact isCSpace_eq_false_of_isDigitC h2.1

/-- Compiling a single well-formed integer-literal token: the program is
the one Integer carrying the `strtol` value truncated to 32 bits. -/
theorem compile_intLiteral (s : List Char) (h : isIntLiteral s = true) :
    compile s = Except.ok [TFObj.int (toInt32 (clampLong (literalValue s)))] := by
  have hs : s ≠ [] := by
    intro he
    rw [he] at h
    simp [isIntLiteral] at h
  obtain ⟨m, hm⟩ : ∃ m, s.length = m + 1 := by
    cases s with
    | nil => exact absurd rfl hs
    | cons c t => exact ⟨t.length, by simp⟩
  have hp2 : (parserAdvanceN s.length
      (parserSkipWhiteSpace { program := s, line := 1, column := 1 })).program = [] := by
    apply advance_skip_program _ [] s []
    · simp
    · simp
    · exact hs
    · exact lit_head_not_space s h
  show compileLoop (s.length + 1) { program := s, line := 1, column := 1 } [] = _
  rw [compileLoop_lit s.length _ [] [] s [] (by simp) (by simp) h (by decide)]
  rw [hm] at hp2 ⊢
  rw [compileLoop_done m _ _ hp2]
  simp

theorem clampLong_int32 (v : Int) (h1 : -2 ^ 31 ≤ v) (h2 : v < 2 ^ 31) :
    clampLong v = v := by
  refine clampLong_eq_self v ?_ ?_
  · unfold longMin; omega
  · unfold longMax; omega

theorem wrap_eq_self (v : Int) (h1 : -2 ^ 31 ≤ v) (h2 : v < 2 ^ 31) :
    toInt32 (clampLong v) = v := by
  rw [clampLong_int32 v h1 h2]
  exact toInt32_eq_self v h1 h2

/-- Compiling the text `"a b OP"` (two integer literals and a
single-character dictionary operation): the program is the two Integers
followed by the Symbol. -/
theorem compile_arith (a b : Int) (c : Char) (op : Operation)
    (hdig : isDigitC c = false)
    (hcs : isCSpace c = false)
    (hlook : lookupOperation (String.mk [c]) = some op) :
    compile (arithText a b c) = Except.ok
      [TFObj.int (toInt32 (clampLong (literalValue (intLit a)))),
       TFObj.int (toInt32 (clampLong (literalValue (intLit b)))),
       TFObj.symbol (String.mk [c])] := by
  have hta := isIntLiteral_intLit a
  have htb := isIntLiteral_intLit b
  have key : ∀ f, compileLoop (f + 4)
      { program := arithText a b c, line := 1, column := 1 } [] = Except.ok
      [TFObj.int (toInt32 (clampLong (literalValue (intLit a)))),
       TFObj.int (toInt32 (clampLong (literalValue (intLit b)))),
       TFObj.symbol (String.mk [c])] := by
    intro f
    have hp1 : ({ program := arithText a b c, line := 1, column := 1 } : TFParser).program
        = [] ++ (intLit a ++ (' ' :: (intLit b ++ [' ', c]))) := by
      simp [arithText]
    show compileLoop ((f + 3) + 1) _ [] = _
    rw [compileLoop_lit (f + 3) _ [] [] (intLit a) (' ' :: (intLit b ++ [' ', c]))
      hp1 (by simp) hta (by rw [List.headD_cons]; decide)]
    have hq2 : (parserAdvanceN (intLit a).length (parserSkipWhiteSpace
        { program := arithText a b c, line := 1, column := 1 })).program
        = ' ' :: (intLit b ++ [' ', c]) :=
      advance_skip_program _ [] (intLit a) (' ' :: (intLit b ++ [' ', c])) hp1 (by simp)
        (intLit_ne_nil a) (lit_head_not_space _ hta)
    have hq2b : (parserAdvanceN (intLit a).length (parserSkipWhiteSpace
        { program := arithText a b c, line := 1, column := 1 })).program
        = [' '] ++ (intLit b ++ [' ', c]) := by
      rw [hq2]; rfl
    show compileLoop ((f + 2) + 1) _ _ = _
    rw [compileLoop_lit (f + 2) _ _ [' '] (intLit b) [' ', c] hq2b (by decide) htb
      (by rw [List.headD_cons]; decide)]
    have hq3 : (parserAdvanceN (intLit b).length (parserSkipWhiteSpace
        (parserAdvanceN (intLit a).length (parserSkipWhiteSpace
          { program := arithText a b c, line := 1, column := 1 })))).program
        = [' ', c] :=
      advance_skip_program _ [' '] (intLit b) [' ', c] hq2b (by decide)
        (intLit_ne_nil b) (lit_head_not_space _ htb)
    have hq3b : (parserAdvanceN (intLit b).length (parserSkipWhiteSpace
        (parserAdvanceN (intLit a).length (parserSkipWhiteSpace
          { program := arithText a b c, line := 1, column := 1 })))).program
        = [' '] ++ [c] := by
      rw [hq3]; rfl
    rw [compileLoop_op_end f _ _ [' '] c op hq3b (by decide) hcs hdig hlook]
    simp
  have hf : (arithText a b c).length + 1 = (arithText a b c).length - 3 + 4 := by
    have h1 : (arithText a b c).length =
        (intLit a).length + (intLit b).length + 3 := by
      simp [arithText]
      omega
    omega
  show compileLoop ((arithText a b c).length + 1) _ [] = _
  rw [hf]
  exact key _

/-!
### Safety of compiled programs (engine never sees an unknown word or an
unexecutable object)
-/

/-- The objects a successfully compiled program may contain: Integers and
Symbols whose name resolves in the operation dictionary. -/
def executableB (o : TFObj) : Bool :=
  match o with
  | TFObj.int _ => true
  | TFObj.symbol s => (lookupOperation s).isSome
  | _ => false

theorem parseSymbol_some_executable (p : TFParser) (obj : TFObj) (q : TFParser)
    (h : parseSymbol p = (some obj, q)) : executableB obj = true := by
  unfold parseSymbol at h
  rcases hl : lookupOperation
      (String.mk (p.program.takeWhile (fun c => !(isCSpace c)))) with _ | op
  · simp [hl] at h
  · simp only [hl] at h
    have hobj : obj = createSymbolObject
        (p.program.takeWhile (fun c => !(isCSpace c))) := by
      have h2 := congrArg Prod.fst h
      simpa using h2.symm
    rw [hobj]
    simp [executableB, createSymbolObject, hl]

theorem compileLoop_executable (fuel : Nat) :
    ∀ p acc prog, (∀ o ∈ acc, executableB o = true) →
      compileLoop fuel p acc = Except.ok prog →
      ∀ o ∈ prog, executableB o = true := by
  induction fuel with
  | zero =>
    intro p acc prog hacc h
    simp [compileLoop] at h
  | succ f ih =>
    intro p acc prog hacc h
    rw [compileLoop] at h
    by_cases hne : p.program.isEmpty = true
    · rw [if_pos hne] at h
      injection h with h2
      subst h2
      exact hacc
    · rw [if_neg hne] at h
      rcases hp1 : (parserSkipWhiteSpace p).program with _ | ⟨c, rest⟩
      · simp only [hp1] at h
        injection h with h2
        subst h2
        exact hacc
      · simp only [hp1] at h
        by_cases hg : (isDigitC c || (c = '-' && isDigitC (rest.headD nulChar))) = true
        · rw [if_pos hg] at h
          refine ih _ _ _ ?_ h
          intro o ho
          rcases List.mem_append.mp ho with ho | ho
          · exact hacc o ho
          · simp only [List.mem_singleton] at ho
            subst ho
            rfl
        · rw [if_neg hg] at h
          rcases hps : parseSymbol (parserSkipWhiteSpace p) with ⟨os, q⟩
          cases os with
          | none => simp [hps] at h
          | some obj =>
            simp only [hps] at h
            refine ih _ _ _ ?_ h
            intro o ho
            rcases List.mem_append.mp ho with ho | ho
            · exact hacc o ho
            · simp only [List.mem_singleton] at ho
              subst ho
              exact parseSymbol_some_executable _ _ _ hps

theorem stackPop_error (st : List TFObj) (e : FatalError)
    (h : stackPop st = Except.error e) : e = FatalError.stackUnderflow := by
  cases st with
  | nil =>
    simp [stackPop] at h
    exact h.symm
  | cons v rest => simp [stackPop] at h

theorem operationAdd_error (st : List TFObj) (out : String) (e : FatalError)
    (h : operationAdd st out = Except.error e) : e = FatalError.stackUnderflow := by
  rcases st with _ | ⟨b, st1⟩
  · simp [operationAdd, stackPop] at h
    exact h.symm
  · rcases st1 with _ | ⟨a, st2⟩
    · simp [operationAdd, stackPop] at h
      exact h.symm
    · cases a <;> cases b <;> simp [operationAdd, stackPop, stackPush] at h

theorem operationSub_error (st : List TFObj) (out : String) (e : FatalError)
    (h : operationSub st out = Except.error e) : e = FatalError.stackUnderflow := by
  rcases st with _ | ⟨b, st1⟩
  · simp [operationSub, stackPop] at h
    exact h.symm
  · rcases st1 with _ | ⟨a, st2⟩
    · simp [operationSub, stackPop] at h
      exact h.symm
    · cases a <;> cases b <;> simp [operationSub, stackPop, stackPush] at h

theorem operationMul_error (st : List TFObj) (out : String) (e : FatalError)
    (h : operationMul st out = Except.error e) : e = FatalError.stackUnderflow := by
  rcases st with _ | ⟨b, st1⟩
  · simp [operationMul, stackPop] at h
    exact h.symm
  · rcases st1 with _ | ⟨a, st2⟩
    · simp [operationMul, stackPop] at h
      exact h.symm
    · cases a <;> cases b <;> simp [operationMul, stackPop, stackPush] at h

theorem operationDiv_error (st : List TFObj) (out : String) (e : FatalError)
    (h : operationDiv st out = Except.error e) :
    e = FatalError.stackUnderflow ∨ e = FatalError.divByZero := by
  rcases st with _ | ⟨b, st1⟩
  · simp [operationDiv, stackPop] at h
    exact Or.inl h.symm
  · rcases st1 with _ | ⟨a, st2⟩
    · simp [operationDiv, stackPop] at h
      exact Or.inl h.symm
    · cases a <;> cases b <;> simp [operationDiv, stackPop, stackPush] at h
      next x y =>
        by_cases hy : y = 0
        · simp [hy] at h
          exact Or.inr h.symm
        · simp [hy] at h

theorem operationPrint_error (st : List TFObj) (out : String) (e : FatalError)
    (h : operationPrint st out = Except.error e) : e = FatalError.stackUnderflow := by
  rcases st with _ | ⟨v, st1⟩
  · simp [operationPrint, stackPop] at h
    exact h.symm
  · cases v <;> simp [operationPrint, stackPop] at h

theorem operationDup_error (st : List TFObj) (out : String) (e : FatalError)
    (h : operationDup st out = Except.error e) : False := by
  rcases st with _ | ⟨v, st1⟩
  · simp [operationDup] at h
  · simp [operationDup, stackPop, stackPush] at h

theorem operationDrop_error (st : List TFObj) (out : String) (e : FatalError)
    (h : operationDrop st out = Except.error e) : e = FatalError.stackUnderflow := by
  rcases st with _ | ⟨v, st1⟩
  · simp [operationDrop, stackPop] at h
    exact h.symm
  · simp [operationDrop, stackPop] at h

theorem operationSwap_error (st : List TFObj) (out : String) (e : FatalError)
    (h : operationSwap st out = Except.error e) : e = FatalError.stackUnderflow := by
  rcases st with _ | ⟨b, st1⟩
  · simp [operationSwap, stackPop] at h
    exact h.symm
  · rcases st1 with _ | ⟨a, st2⟩
    · simp [operationSwap, stackPop] at h
      exact h.symm
    · simp [operationSwap, stackPop, stackPush] at h

/-- A dictionary-bound behaviour can only fail with stack underflow or
division by zero. -/
theorem applyOperation_error (op : Operation) (st : List TFObj) (out : String)
    (e : FatalError) (h : applyOperation op st out = Except.error e) :
    e = FatalError.stackUnderflow ∨ e = FatalError.divByZero := by
  cases op with
  | add => exact Or.inl (operationAdd_error st out e h)
  | sub => exact Or.inl (operationSub_error st out e h)
  | mul => exact Or.inl (operationMul_error st out e h)
  | div => exact operationDiv_error st out e h
  | print => exact Or.inl (operationPrint_error st out e h)
  | dup => exact absurd h (fun hh => operationDup_error st out e hh)
  | drop => exact Or.inl (operationDrop_error st out e h)
  | swap => exact Or.inl (operationSwap_error st out e h)

/-- Executing a program whose elements are all executable can only fail
with stack underflow or division by zero. -/
theorem execute_error_cases (prog : List TFObj) :
    ∀ st out e, (∀ o ∈ prog, executableB o = true) →
      execute prog st out = Except.error e →
      e = FatalError.stackUnderflow ∨ e = FatalError.divByZero := by
  induction prog with
  | nil =>
    intro st out e hex h
    simp [execute] at h
  | cons obj rest ih =>
    intro st out e hex h
    have hobj := hex obj (by simp)
    rw [execute] at h
    rcases hstep : executeStep obj st out with e1 | ⟨st1, out1⟩
    · rw [hstep] at h
      injection h with h2
      subst h2
      cases obj with
      | int n => simp [executeStep] at hstep
      | bool n => simp [executeStep] at hstep
      | str s => simp [executableB] at hobj
      | list l => simp [executableB] at hobj
      | symbol s =>
        rcases hl : lookupOperation s with _ | op
        · simp [executableB, hl] at hobj
        · simp only [executeStep, hl] at hstep
          exact applyOperation_error op st out e1 hstep
    · rw [hstep] at h
      exact ih st1 out1 e (fun o ho => hex o (by simp [ho])) h

/-!
### The release discipline of the compiler's failure path
-/

/-- The heap states `compile` produces: the program list is live with
refcount 1, and the live atoms are exactly its elements, each owned
solely by the list (refcount 1), with distinct ids below the allocation
counter. -/
def HeapInv (h : RCHeap) : Prop :=
  h.listRc = 1 ∧ h.atoms = h.elems.map (fun i => (i, 1)) ∧
    h.elems.Nodup ∧ ∀ i ∈ h.elems, i < h.next

theorem map_inc_eq_self (l : List (Nat × Nat)) (j : Nat)
    (hj : ∀ q ∈ l, q.1 ≠ j) :
    l.map (fun q => if q.1 = j then (q.1, q.2 + 1) else q) = l := by
  induction l with
  | nil => rfl
  | cons q t ih =>
    rw [List.map_cons, if_neg (hj q (by simp)),
      ih (fun r hr => hj r (by simp [hr]))]

theorem filterMap_dec_keep (l : List (Nat × Nat)) (j : Nat)
    (hj : ∀ q ∈ l, q.1 ≠ j) :
    l.filterMap (fun q =>
      if q.1 = j then (if q.2 ≤ 1 then none else some (q.1, q.2 - 1))
      else some q) = l := by
  induction l with
  | nil => rfl
  | cons q t ih =>
    rw [List.filterMap_cons]
    rw [if_neg (hj q (by simp))]
    rw [ih (fun r hr => hj r (by simp [hr]))]

theorem heap_atoms_ne_next (h : RCHeap) (hi : HeapInv h) :
    ∀ q ∈ h.atoms, q.1 ≠ h.next := by
  obtain ⟨h1, h2, h3, h4⟩ := hi
  intro q hq
  rw [h2] at hq
  obtain ⟨i, hi2, rfl⟩ := List.mem_map.mp hq
  have := h4 i hi2
  omega

/-- The create / append-retain / release sequence of one accepted token
grows the program list by the fresh atom, owned solely by the list. -/
theorem heapStep (h : RCHeap) (hi : HeapInv h) :
    decAtom (listAppendRC (allocAtom h).2 (allocAtom h).1) (allocAtom h).1 =
      { listRc := h.listRc, elems := h.elems ++ [h.next],
        atoms := (h.elems ++ [h.next]).map (fun i => (i, 1)),
        next := h.next + 1 } := by
  have hkey := heap_atoms_ne_next h hi
  obtain ⟨h1, h2, h3, h4⟩ := hi
  simp only [allocAtom, listAppendRC, incAtom, decAtom, List.map_append,
    List.filterMap_append]
  rw [map_inc_eq_self _ _ hkey]
  rw [filterMap_dec_keep _ _ hkey]
  simp [h2, List.map_append]

theorem heapStep_inv (h : RCHeap) (hi : HeapInv h) :
    HeapInv (decAtom (listAppendRC (allocAtom h).2 (allocAtom h).1) (allocAtom h).1) ∧
    (decAtom (listAppendRC (allocAtom h).2 (allocAtom h).1) (allocAtom h).1).elems.length
      = h.elems.length + 1 := by
  rw [heapStep h hi]
  obtain ⟨h1, h2, h3, h4⟩ := hi
  refine ⟨⟨h1, rfl, ?_, ?_⟩, by simp⟩
  · show (h.elems ++ [h.next]).Nodup
    refine List.Nodup.append h3 (List.nodup_singleton _) ?_
    intro i hmem hmem2
    simp only [List.mem_singleton] at hmem2
    subst hmem2
    have h5 := h4 _ hmem
    omega
  · show ∀ i ∈ h.elems ++ [h.next], i < h.next + 1
    intro i hi2
    rcases List.mem_append.mp hi2 with hm | hm
    · have h5 := h4 i hm
      omega
    · simp only [List.mem_singleton] at hm
      omega

/-- Releasing the program list releases every element: folding the
per-element release over a heap whose atoms are exactly the (distinct)
elements with refcount 1 empties the atom table. -/
theorem foldl_decAtom_clears (l : List Nat) :
    ∀ h : RCHeap, h.atoms = l.map (fun i => (i, 1)) → l.Nodup →
      (l.foldl decAtom h).atoms = [] ∧
      (l.foldl decAtom h).listRc = h.listRc ∧
      (l.foldl decAtom h).elems = h.elems := by
  induction l with
  | nil =>
    intro h ha hnd
    exact ⟨ha, rfl, rfl⟩
  | cons i t ih =>
    intro h ha hnd
    have hne : ∀ q ∈ t.map (fun j => (j, (1 : Nat))), q.1 ≠ i := by
      intro q hq
      obtain ⟨j, hj, rfl⟩ := List.mem_map.mp hq
      intro hc
      exact (List.nodup_cons.mp hnd).1 (hc ▸ hj)
    have hstep : (decAtom h i).atoms = t.map (fun j => (j, 1)) := by
      simp only [decAtom, ha, List.map_cons, List.filterMap_cons, if_pos rfl]
      simp [filterMap_dec_keep _ _ hne]
    have h5 := ih (decAtom h i) hstep (List.nodup_cons.mp hnd).2
    rw [List.foldl_cons]
    exact ⟨h5.1, h5.2.1, h5.2.2⟩

/-- The failure path of `compile`: the unknown symbol's object has
already died inside `parseSymbol`, and releasing the partial program
list frees it and every element — nothing stays allocated. -/
theorem heapError (h : RCHeap) (hi : HeapInv h) :
    (decList (decAtom (allocAtom h).2 (allocAtom h).1)).listRc = 0 ∧
    (decList (decAtom (allocAtom h).2 (allocAtom h).1)).atoms = [] := by
  have hkey := heap_atoms_ne_next h hi
  obtain ⟨h1, h2, h3, h4⟩ := hi
  have hback : decAtom (allocAtom h).2 (allocAtom h).1 =
      { listRc := h.listRc, elems := h.elems, atoms := h.atoms, next := h.next + 1 } := by
    simp only [allocAtom, decAtom, List.filterMap_append]
    rw [filterMap_dec_keep _ _ hkey]
    simp
  rw [hback]
  have hfold := foldl_decAtom_clears h.elems
    { listRc := h.listRc, elems := h.elems, atoms := h.atoms, next := h.next + 1 }
    (by simpa using h2) h3
  unfold decList
  rw [if_pos (by simp [h1])]
  exact ⟨rfl, hfold.1⟩

/-!
### Consumption lemmas: every accepted token advances the parser
-/

theorem strtolModel_consumed_pos (c : Char) (rest : List Char)
    (hg : (isDigitC c || (c = '-' && isDigitC (rest.headD nulChar))) = true) :
    1 ≤ (strtolModel (c :: rest)).2 := by
  have hg2 : isDigitC c = true ∨ (c = '-' ∧ isDigitC (rest.headD nulChar) = true) := by
    simpa using hg
  rcases hg2 with hd | ⟨hc1, hd2⟩
  · have hcs := isCSpace_eq_false_of_isDigitC hd
    have hdrop : (c :: rest).dropWhile isCSpace = c :: rest :=
      dropWhile_cons_of_neg _ _ _ hcs
    simp only [strtolModel, hdrop]
    rw [if_neg (ne_dash_of_isDigitC hd), if_neg (ne_plus_of_isDigitC hd)]
    simp [List.takeWhile_cons, hd]
  · subst hc1
    cases rest with
    | nil =>
      simp only [List.headD_nil] at hd2
      exact absurd hd2 (by decide)
    | cons d t =>
      simp only [List.headD_cons] at hd2
      have hdrop : ('-' :: d :: t).dropWhile isCSpace = '-' :: d :: t :=
        dropWhile_cons_of_neg _ _ _ (by decide)
      simp only [strtolModel, hdrop]
      simp [List.takeWhile_cons, hd2]

theorem parseNumber_consumes (p : TFParser) (c : Char) (rest : List Char)
    (hp : p.program = c :: rest)
    (hg : (isDigitC c || (c = '-' && isDigitC (rest.headD nulChar))) = true) :
    (parseNumber p).2.program.length < p.program.length := by
  have hn := strtolModel_consumed_pos c rest hg
  show (parserAdvanceN (strtolModel p.program).2 p).program.length < _
  rw [parserAdvanceN_program, hp]
  simp only [List.length_drop, List.length_cons]
  omega

theorem parseSymbol_snd (p : TFParser) :
    (parseSymbol p).2 = parserAdvanceN
      ((p.program.takeWhile (fun c => !(isCSpace c))).length) p := by
  unfold parseSymbol
  rcases hl : lookupOperation
      (String.mk (p.program.takeWhile (fun c => !(isCSpace c)))) with _ | op <;>
    simp [hl]

theorem parseSymbol_consumes (p : TFParser) (c : Char) (rest : List Char)
    (hp : p.program = c :: rest) (hcs : isCSpace c = false) :
    (parseSymbol p).2.program.length < p.program.length := by
  rw [parseSymbol_snd, parserAdvanceN_program, hp]
  have htake : (c :: rest).takeWhile (fun x => !(isCSpace x))
      = c :: rest.takeWhile (fun x => !(isCSpace x)) := by
    simp [List.takeWhile_cons, hcs]
  rw [htake]
  simp only [List.length_cons, List.length_drop]
  omega

/-!
### The instrumented compile agrees with the functional one
-/

theorem compileLoopRC_fst (fuel : Nat) :
    ∀ p acc h, (compileLoopRC fuel p acc h).1 = compileLoop fuel p acc := by
  induction fuel with
  | zero => intro p acc h; rfl
  | succ f ih =>
    intro p acc h
    rw [compileLoopRC, compileLoop]
    by_cases hne : p.program.isEmpty = true
    · rw [if_pos hne, if_pos hne]
    · rw [if_neg hne, if_neg hne]
      rcases hp1 : (parserSkipWhiteSpace p).program with _ | ⟨c, rest⟩
      · simp only [hp1]
      · simp only [hp1]
        by_cases hg : (isDigitC c || (c = '-' && isDigitC (rest.headD nulChar))) = true
        · rw [if_pos hg, if_pos hg]
          exact ih _ _ _
        · rw [if_neg hg, if_neg hg]
          rcases hps : parseSymbol (parserSkipWhiteSpace p) with ⟨os, q⟩
          cases os with
          | none => simp only [hps]
          | some obj =>
            simp only [hps]
            exact ih _ _ _

/-- The heap after the instrumented compile loop: failure leaves nothing
allocated; success leaves exactly the program list owning its elements. -/
theorem compileLoopRC_heap (fuel : Nat) :
    ∀ p acc h, p.program.length < fuel → HeapInv h → h.elems.length = acc.length →
      (∀ e, (compileLoopRC fuel p acc h).1 = Except.error e →
        (compileLoopRC fuel p acc h).2.listRc = 0 ∧
        (compileLoopRC fuel p acc h).2.atoms = []) ∧
      (∀ prog, (compileLoopRC fuel p acc h).1 = Except.ok prog →
        HeapInv (compileLoopRC fuel p acc h).2 ∧
        (compileLoopRC fuel p acc h).2.elems.length = prog.length) := by
  induction fuel with
  | zero =>
    intro p acc h hf
    exact absurd hf (by omega)
  | succ f ih =>
    intro p acc h hf hi hlen
    by_cases hne : p.program.isEmpty = true
    · have hred : compileLoopRC (f + 1) p acc h = (Except.ok acc, h) := by
        rw [compileLoopRC, if_pos hne]
      rw [hred]
      constructor
      · intro e he
        simp at he
      · intro prog hpr
        simp only at hpr
        injection hpr with h2
        subst h2
        exact ⟨hi, hlen⟩
    · have hlen1 : (parserSkipWhiteSpace p).program.length ≤ p.program.length := by
        rw [parserSkipWhiteSpace_program]
        exact (List.dropWhile_sublist _).length_le
      rcases hp1 : (parserSkipWhiteSpace p).program with _ | ⟨c, rest⟩
      · have hred : compileLoopRC (f + 1) p acc h = (Except.ok acc, h) := by
          rw [compileLoopRC, if_neg hne]
          simp only [hp1]
        rw [hred]
        constructor
        · intro e he
          simp at he
        · intro prog hpr
          simp only at hpr
          injection hpr with h2
          subst h2
          exact ⟨hi, hlen⟩
      · have hcs : isCSpace c = false := by
          refine dropWhile_head_neg isCSpace p.program c rest ?_
          rw [← parserSkipWhiteSpace_program]
          exact hp1
        by_cases hg : (isDigitC c || (c = '-' && isDigitC (rest.headD nulChar))) = true
        · have hred : compileLoopRC (f + 1) p acc h =
              compileLoopRC f (parseNumber (parserSkipWhiteSpace p)).2
                (acc ++ [(parseNumber (parserSkipWhiteSpace p)).1])
                (decAtom (listAppendRC (allocAtom h).2 (allocAtom h).1) (allocAtom h).1) := by
            rw [compileLoopRC, if_neg hne]
            simp only [hp1]
            rw [if_pos hg]
          rw [hred]
          have hcons := parseNumber_consumes (parserSkipWhiteSpace p) c rest hp1 hg
          rw [hp1] at hcons
          have hfuel : (parseNumber (parserSkipWhiteSpace p)).2.program.length < f := by
            have h6 : (c :: rest).length ≤ p.program.length := by
              rw [← hp1]
              exact hlen1
            simp only [List.length_cons] at hcons h6
            omega
          obtain ⟨hinv2, hlen2⟩ := heapStep_inv h hi
          exact ih _ _ _ hfuel hinv2 (by rw [hlen2]; simp [hlen])
        · rcases hps : parseSymbol (parserSkipWhiteSpace p) with ⟨os, q⟩
          cases os with
          | none =>
            have hred : compileLoopRC (f + 1) p acc h =
                (Except.error ⟨(parserSkipWhiteSpace p).line, (parserSkipWhiteSpace p).column⟩,
                  decList (decAtom (allocAtom h).2 (allocAtom h).1)) := by
              rw [compileLoopRC, if_neg hne]
              simp only [hp1]
              rw [if_neg hg]
              simp only [hps]
            rw [hred]
            constructor
            · intro e he
              exact heapError h hi
            · intro prog hpr
              simp at hpr
          | some obj =>
            have hred : compileLoopRC (f + 1) p acc h =
                compileLoopRC f q (acc ++ [obj])
                  (decAtom (listAppendRC (allocAtom h).2 (allocAtom h).1) (allocAtom h).1) := by
              rw [compileLoopRC, if_neg hne]
              simp only [hp1]
              rw [if_neg hg]
              simp only [hps]
            rw [hred]
            have hcons := parseSymbol_consumes (parserSkipWhiteSpace p) c rest hp1 hcs
            rw [hps] at hcons
            rw [hp1] at hcons
            have hfuel : q.program.length < f := by
              have h6 : (c :: rest).length ≤ p.program.length := by
                rw [← hp1]
                exact hlen1
              simp only [List.length_cons] at hcons h6
              omega
            obtain ⟨hinv2, hlen2⟩ := heapStep_inv h hi
            exact ih _ _ _ hfuel hinv2 (by rw [hlen2]; simp [hlen])

/-!
### The claims
-/

/-- Whether a value carries the Integer tag (`type == TF_OBJ_INT`). -/
def isIntObj : TFObj → Bool
  | TFObj.int _ => true
  | _ => false

/-- C1: every element of a successfully compiled program is an Integer
or a Symbol resolving in the operation dictionary, so executing such a
program can never take the engine's unknown-word or unexecutable-object
fatal branches — the only fatal outcomes are stack underflow and
division by zero. -/
theorem claimC1 (text : List Char) (prog : List TFObj) (st : List TFObj)
    (out : String) (e : FatalError) (hc : compile text = Except.ok prog) :
    prog.all executableB = true ∧
    (execute prog st out = Except.error e →
      e = FatalError.stackUnderflow ∨ e = FatalError.divByZero) := by
  have hc2 : compileLoop (text.length + 1) { program := text, line := 1, column := 1 } []
      = Except.ok prog := hc
  have hex := compileLoop_executable (text.length + 1) _ [] prog (by simp) hc2
  exact ⟨List.all_eq_true.mpr hex, fun he => execute_error_cases prog st out e hex he⟩

theorem claimC1_witness :
    ([TFObj.int 1, TFObj.int 2, TFObj.symbol "+"].all executableB = true) ∧
    (execute [TFObj.int 1, TFObj.int 2, TFObj.symbol "+"] [] ""
        = Except.error FatalError.stackUnderflow →
      FatalError.stackUnderflow = FatalError.stackUnderflow ∨
        FatalError.stackUnderflow = FatalError.divByZero) :=
  claimC1 ("1 2 +".data) [TFObj.int 1, TFObj.int 2, TFObj.symbol "+"] [] ""
    FatalError.stackUnderflow (by rfl)

/-- C2: for 32-bit Integers `a` and `b`, compiling and executing
`"a b +"`, `"a b -"`, `"a b *"` from an empty stack leaves a single
Integer equal to `a+b`, `a-b`, `a*b` under two's-complement 32-bit
wraparound (`toInt32`); the pop order (`b` first, then `a`) is visible
in the `a - b` result. -/
theorem claimC2 (a b : Int)
    (ha1 : -2 ^ 31 ≤ a) (ha2 : a < 2 ^ 31) (hb1 : -2 ^ 31 ≤ b) (hb2 : b < 2 ^ 31) :
    (compile (arithText a b '+') = Except.ok [TFObj.int a, TFObj.int b, TFObj.symbol "+"] ∧
      execute [TFObj.int a, TFObj.int b, TFObj.symbol "+"] [] ""
        = Except.ok ([TFObj.int (toInt32 (a + b))], "")) ∧
    (compile (arithText a b '-') = Except.ok [TFObj.int a, TFObj.int b, TFObj.symbol "-"] ∧
      execute [TFObj.int a, TFObj.int b, TFObj.symbol "-"] [] ""
        = Except.ok ([TFObj.int (toInt32 (a - b))], "")) ∧
    (compile (arithText a b '*') = Except.ok [TFObj.int a, TFObj.int b, TFObj.symbol "*"] ∧
      execute [TFObj.int a, TFObj.int b, TFObj.symbol "*"] [] ""
        = Except.ok ([TFObj.int (toInt32 (a * b))], "")) := by
  have hwa : toInt32 (clampLong (literalValue (intLit a))) = a := by
    rw [literalValue_intLit]
    exact wrap_eq_self a ha1 ha2
  have hwb : toInt32 (clampLong (literalValue (intLit b))) = b := by
    rw [literalValue_intLit]
    exact wrap_eq_self b hb1 hb2
  refine ⟨⟨?_, rfl⟩, ⟨?_, rfl⟩, ⟨?_, rfl⟩⟩
  · rw [compile_arith a b '+' Operation.add (by decide) (by decide) rfl, hwa, hwb]
  · rw [compile_arith a b '-' Operation.sub (by decide) (by decide) rfl, hwa, hwb]
  · rw [compile_arith a b '*' Operation.mul (by decide) (by decide) rfl, hwa, hwb]

theorem claimC2_witness :
    (compile (arithText 3 (-4) '+')
        = Except.ok [TFObj.int 3, TFObj.int (-4), TFObj.symbol "+"] ∧
      execute [TFObj.int 3, TFObj.int (-4), TFObj.symbol "+"] [] ""
        = Except.ok ([TFObj.int (toInt32 (3 + -4))], "")) ∧
    (compile (arithText 3 (-4) '-')
        = Except.ok [TFObj.int 3, TFObj.int (-4), TFObj.symbol "-"] ∧
      execute [TFObj.int 3, TFObj.int (-4), TFObj.symbol "-"] [] ""
        = Except.ok ([TFObj.int (toInt32 (3 - -4))], "")) ∧
    (compile (arithText 3 (-4) '*')
        = Except.ok [TFObj.int 3, TFObj.int (-4), TFObj.symbol "*"] ∧
      execute [TFObj.int 3, TFObj.int (-4), TFObj.symbol "*"] [] ""
        = Except.ok ([TFObj.int (toInt32 (3 * -4))], "")) :=
  claimC2 3 (-4) (by decide) (by decide) (by decide) (by decide)

/-- C3: `/` with two Integer operands and a zero divisor is the fatal
division-by-zero error before anything is pushed; with a nonzero divisor
it pushes the truncating quotient (wrapped to 32 bits).  In particular
`"5 0 /"` compiles and halts with the division-by-zero fatal error,
returning no result stack. -/
theorem claimC3 (a b : Int) (rest : List TFObj) (out : String) :
    (applyOperation Operation.div (TFObj.int b :: TFObj.int a :: rest) out =
      if b = 0 then Except.error FatalError.divByZero
      else Except.ok (TFObj.int (toInt32 (Int.tdiv a b)) :: rest, out)) ∧
    compile ("5 0 /".data) = Except.ok [TFObj.int 5, TFObj.int 0, TFObj.symbol "/"] ∧
    execute [TFObj.int 5, TFObj.int 0, TFObj.symbol "/"] [] ""
      = Except.error FatalError.divByZero := by
  refine ⟨?_, rfl, rfl⟩
  by_cases hb : b = 0 <;>
    simp [applyOperation, operationDiv, stackPop, stackPush, createIntegerObject, hb]

/-- C4: compiling a well-formed integer literal in the 32-bit range and
executing the result on an empty stack leaves exactly that Integer. -/
theorem claimC4 (s : List Char) (h1 : isIntLiteral s = true)
    (h2 : -2 ^ 31 ≤ literalValue s) (h3 : literalValue s < 2 ^ 31) :
    compile s = Except.ok [TFObj.int (literalValue s)] ∧
    execute [TFObj.int (literalValue s)] [] ""
      = Except.ok ([TFObj.int (literalValue s)], "") := by
  have hw : toInt32 (clampLong (literalValue s)) = literalValue s := wrap_eq_self _ h2 h3
  refine ⟨?_, rfl⟩
  rw [compile_intLiteral s h1, hw]

theorem claimC4_witness :
    compile ("42".data) = Except.ok [TFObj.int (literalValue ("42".data))] ∧
    execute [TFObj.int (literalValue ("42".data))] [] ""
      = Except.ok ([TFObj.int (literalValue ("42".data))], "") :=
  claimC4 ("42".data) (by decide) (by decide) (by decide)

/-- C5: `dup` on an empty stack is a silent no-op (execution continues
and, alone, completes with an empty stack), while `drop` on an empty
stack halts immediately with the fatal stack-underflow error. -/
theorem claimC5 :
    compile ("dup".data) = Except.ok [TFObj.symbol "dup"] ∧
    (∀ prog out, execute (TFObj.symbol "dup" :: prog) [] out = execute prog [] out) ∧
    execute [TFObj.symbol "dup"] [] "" = Except.ok ([], "") ∧
    compile ("drop".data) = Except.ok [TFObj.symbol "drop"] ∧
    (∀ prog out, execute (TFObj.symbol "drop" :: prog) [] out
      = Except.error FatalError.stackUnderflow) :=
  ⟨rfl, fun _ _ => rfl, rfl, rfl, fun _ _ => rfl⟩

/-- C6: a maximal non-whitespace token that is not an integer literal
and fails dictionary lookup aborts compilation immediately with a
SyntaxError at the 1-based line/column of the token's first character;
compiling `"3 foo"` fails at line 1, column 3. -/
theorem claimC6 :
    (∀ f p acc c rest,
      (parserSkipWhiteSpace p).program = c :: rest →
      (isDigitC c || (c = '-' && isDigitC (rest.headD nulChar))) = false →
      lookupOperation (String.mk ((c :: rest).takeWhile (fun x => !(isCSpace x)))) = none →
      compileLoop (f + 1) p acc =
        Except.error ⟨(parserSkipWhiteSpace p).line, (parserSkipWhiteSpace p).column⟩) ∧
    compile ("3 foo".data) = Except.error ⟨1, 3⟩ := by
  refine ⟨?_, rfl⟩
  intro f p acc c rest hp1 hg hlook
  have hdw := parserSkipWhiteSpace_program p
  rw [hp1] at hdw
  have hne : ¬(p.program.isEmpty = true) := by
    cases hpp : p.program with
    | nil =>
      rw [hpp] at hdw
      simp at hdw
    | cons x xs => simp [hpp]
  rw [compileLoop, if_neg hne]
  simp only [hp1]
  rw [if_neg (by rw [hg]; simp)]
  have hsym : (parseSymbol (parserSkipWhiteSpace p)).1 = none := by
    unfold parseSymbol
    simp only [hp1, hlook]
  rcases hps : parseSymbol (parserSkipWhiteSpace p) with ⟨os, q⟩
  rw [hps] at hsym
  simp only at hsym
  subst hsym
  simp only [hps]

theorem claimC6_witness :
    compileLoop (0 + 1) { program := "foo".data, line := 1, column := 1 } [] =
      Except.error
        ⟨(parserSkipWhiteSpace { program := "foo".data, line := 1, column := 1 }).line,
          (parserSkipWhiteSpace { program := "foo".data, line := 1, column := 1 }).column⟩ :=
  claimC6.1 0 { program := "foo".data, line := 1, column := 1 } [] 'f' ("oo".data)
    (by rfl) (by rfl) (by rfl)

/-- C7: the instrumented compile agrees with the functional one, and
either compilation succeeds — the heap holds exactly the live program
list (refcount 1) owning one reference to each of its elements, one per
program object — or it fails, and the partially built list and every
value appended to it have been released: nothing stays allocated, and no
program is returned. -/
theorem claimC7 (text : List Char) :
    (compileRC text).1 = compile text ∧
    (∀ e, (compileRC text).1 = Except.error e →
      (compileRC text).2.listRc = 0 ∧ (compileRC text).2.atoms = []) ∧
    (∀ prog, (compileRC text).1 = Except.ok prog →
      (compileRC text).2.listRc = 1 ∧
      (compileRC text).2.atoms = (compileRC text).2.elems.map (fun i => (i, 1)) ∧
      (compileRC text).2.elems.length = prog.length) := by
  have hinv : HeapInv { listRc := 1, elems := [], atoms := [], next := 0 } := by
    refine ⟨rfl, rfl, List.nodup_nil, ?_⟩
    intro i hi
    simp at hi
  have hmain := compileLoopRC_heap (text.length + 1)
    { program := text, line := 1, column := 1 } [] _
    (by show text.length < text.length + 1; omega) hinv rfl
  refine ⟨compileLoopRC_fst _ _ _ _, hmain.1, ?_⟩
  intro prog hpr
  obtain ⟨⟨g1, g2, g3, g4⟩, g5⟩ := hmain.2 prog hpr
  exact ⟨g1, g2, g5⟩

theorem claimC7_witness :
    (compileRC ("3 foo".data)).2.listRc = 0 ∧ (compileRC ("3 foo".data)).2.atoms = [] :=
  (claimC7 ("3 foo".data)).2.1 ⟨1, 3⟩ (by rfl)

/-- C8: `"1 2 swap"` from an empty stack leaves 1 on top and 2 below
(list head = top of stack), and then executing `". ."` prints exactly
`"1 2 "`. -/
theorem claimC8 :
    compile ("1 2 swap".data) = Except.ok [TFObj.int 1, TFObj.int 2, TFObj.symbol "swap"] ∧
    execute [TFObj.int 1, TFObj.int 2, TFObj.symbol "swap"] [] ""
      = Except.ok ([TFObj.int 1, TFObj.int 2], "") ∧
    compile (". .".data) = Except.ok [TFObj.symbol ".", TFObj.symbol "."] ∧
    execute [TFObj.symbol ".", TFObj.symbol "."] [TFObj.int 1, TFObj.int 2] ""
      = Except.ok ([], "1 2 ") :=
  ⟨rfl, rfl, rfl, rfl⟩

/-- C9: for `+`, `-`, `*`, `/`, if either popped operand is not an
Integer, nothing is pushed and nothing is computed, but both operands
are still consumed: the stack ends exactly two elements shorter. -/
theorem claimC9 (a b : TFObj) (rest : List TFObj) (out : String)
    (h : isIntObj a = false ∨ isIntObj b = false) :
    operationAdd (b :: a :: rest) out = Except.ok (rest, out) ∧
    operationSub (b :: a :: rest) out = Except.ok (rest, out) ∧
    operationMul (b :: a :: rest) out = Except.ok (rest, out) ∧
    operationDiv (b :: a :: rest) out = Except.ok (rest, out) := by
  cases a <;> cases b <;>
    simp [isIntObj, operationAdd, operationSub, operationMul, operationDiv,
      stackPop, stackPush] at h ⊢

theorem claimC9_witness :
    operationAdd (TFObj.int 0 :: TFObj.str "x" :: []) "" = Except.ok ([], "") ∧
    operationSub (TFObj.int 0 :: TFObj.str "x" :: []) "" = Except.ok ([], "") ∧
    operationMul (TFObj.int 0 :: TFObj.str "x" :: []) "" = Except.ok ([], "") ∧
    operationDiv (TFObj.int 0 :: TFObj.str "x" :: []) "" = Except.ok ([], "") :=
  claimC9 (TFObj.str "x") (TFObj.int 0) [] "" (Or.inl rfl)

/-- C10: an integer literal is parsed with `strtol` into a 64-bit `long`
(with `strtol`'s clamping) and truncated to a 32-bit `int` when the
Integer object is constructed; a literal beyond the 32-bit range still
compiles, to the value reduced modulo `2^32` — in particular
`4294967296` compiles to the Integer 0 rather than being rejected or
saturated. -/
theorem claimC10 (s : List Char) (h : isIntLiteral s = true) :
    compile s = Except.ok [TFObj.int (toInt32 (clampLong (literalValue s)))] ∧
    compile ("4294967296".data) = Except.ok [TFObj.int 0] :=
  ⟨compile_intLiteral s h, rfl⟩

theorem claimC10_witness :
    compile ("4294967296".data)
      = Except.ok [TFObj.int (toInt32 (clampLong (literalValue ("4294967296".data))))] ∧
    compile ("4294967296".data) = Except.ok [TFObj.int 0] :=
  claimC10 ("4294967296".data) (by decide)

end ToyForth
